import Mathlib

/-!
Verification of the haumea code generator (src/codegen.rs).

The Rust source is shallowly embedded below.  `Rc<T>` is modelled as a value
together with its strong reference count; `Rc::try_unwrap` succeeds exactly
when the count is 1.  A Rust `panic!` aborts generation, which we model by
returning `none`; every emitter therefore returns `Option String`.  The
mutable output buffer `&mut String` is modelled by explicit state passing:
each emitter takes the current buffer and returns the extended buffer.
-/

namespace haumea

/-- Model of `std::rc::Rc<T>`: the payload together with its strong count. -/
structure Rc (α : Type) where
  count : Nat
  value : α

/-- Model of `Rc::try_unwrap`: succeeds exactly when the strong count is 1. -/
def Rc.tryUnwrap {α : Type} (r : Rc α) : Option α :=
  if r.count = 1 then some r.value else none

/-- Unwrapping an `Rc` yields a structurally smaller value. -/
theorem Rc.sizeOf_of_tryUnwrap {α : Type} [SizeOf α] (r : Rc α) (v : α)
    (h : r.tryUnwrap = some v) : sizeOf v < sizeOf r := by
  unfold Rc.tryUnwrap at h
  split at h
  · cases h
    cases r
    simp only [Rc.mk.sizeOf_spec]
    omega
  · cases h

/-- The field of an `Rc` is structurally smaller than the `Rc` itself. -/
theorem Rc.sizeOf_value {α : Type} [SizeOf α] (r : Rc α) :
    sizeOf r.value < sizeOf r := by
  cases r
  simp only [Rc.mk.sizeOf_spec]
  omega

/-- The 17-member operator enumeration `parser::Operator`. -/
inductive Operator where
  | Add | Sub | Mul | Div | Negate
  | Equals | NotEquals | Gt | Lt | Gte | Lte
  | LogicalAnd | LogicalOr | LogicalNot
  | BinaryAnd | BinaryOr | BinaryNot

/-- The expression AST `parser::Expression`.  Integers are `i64` in the
source; we embed the value as `Int` (claims about integers carry the 64-bit
range as a hypothesis). -/
inductive Expression where
  | Integer (i : Int)
  | Ident (name : String)
  | BinaryOp (operator : Operator) (left : Rc Expression) (right : Rc Expression)
  | Call (function : String) (arguments : List (Rc Expression))
  | UnaryOp (operator : Operator) (expression : Rc Expression)

/-- The statement AST `parser::Statement`. -/
inductive Statement where
  | Return (exp : Expression)
  | Do (block : List (Rc Statement))
  | Call (function : String) (arguments : List Expression)
  | Var (ident : String)
  | Set (ident : String) (expr : Expression)
  | Change (ident : String) (expr : Expression)
  | If (cond : Expression) (if_clause : Rc Statement) (else_clause : Rc (Option Statement))

/-- A function definition `parser::Function`. -/
structure Function where
  name : String
  signature : Option (List String)
  code : Statement

/-- A whole program `parser::Program`: the ordered list of functions. -/
abbrev Program := List Function

/-- The constant `INDENT`, one fixed-width indentation unit. -/
def INDENT : String := "    "

/-- The constant `NEW_LINE`. -/
def NEW_LINE : String := "\n"

/-- The constant `PROLOG` (the `\x7b`/`\x7d` escapes are the literal brace
characters of the C text; `\\n` is a backslash followed by `n`, exactly as in
the Rust literal). -/
def PROLOG : String :=
  "\n/* Haumea prolog */\n#include <stdio.h>\n\nlong display(long n) \x7b\n    printf(\"%ld\\n\", n);\n    return 0;\n\x7d\n\n/* End prolog */\n\n/* Start compiled program */\n"

/-- The constant `EPILOG`. -/
def EPILOG : String := "\n/* End compiled program */\n"

/-- The operator table `get_c_name`. -/
def get_c_name (op : Operator) : String :=
  match op with
  | .Add => "+"
  | .Sub => "-"
  | .Mul => "*"
  | .Div => "/"
  | .Negate => "-"
  | .Equals => "=="
  | .NotEquals => "!="
  | .Gt => ">"
  | .Lt => "<"
  | .Gte => ">="
  | .Lte => "<="
  | .LogicalAnd => "&&"
  | .LogicalOr => "||"
  | .LogicalNot => "!"
  | .BinaryAnd => "&"
  | .BinaryOr => "|"
  | .BinaryNot => "~"

/-- Fuel-indexed model of the source function `replicate`, faithful to the
recursion `if t == 0 \x7b "" \x7d else \x7b replicate(s, t-1) + s \x7d` on
`i32`: a result of `none` means the recursion did not finish within the given
fuel (for negative `t` it never finishes, for any fuel). -/
def replicateF : Nat → String → Int → Option String
  | 0, _, _ => none
  | fuel + 1, s, t =>
    if t = 0 then some ""
    else
      match replicateF fuel s (t - 1) with
      | none => none
      | some r => some (r ++ s)

/-- Total version of `replicate` used by the emitters.  It agrees with the
source recursion for every `t ≥ 0`; for `t < 0` (where the source recursion
would never terminate) it is totalized to `""`.  The emitters only ever call
it with non-negative `t`, which is proved as part of claim C10. -/
def replicate (s : String) (t : Int) : String :=
  if t = 0 then ""
  else if t < 0 then ""
  else replicate s (t - 1) ++ s
termination_by t.toNat
decreasing_by
  simp_wf
  omega

/-- The helper `write_newline`. -/
def write_newline (out : String) : String := out ++ NEW_LINE

mutual

/-- The expression emitter `compile_expression`.  It returns the emitted
fragment; `none` models the `panic!` taken when `Rc::try_unwrap` fails. -/
def compile_expression : Expression → Option String
  | .Integer i => some (toString i ++ "l")
  | .Ident name => some name
  | .BinaryOp op left right =>
    match h1 : left.tryUnwrap with
    | none => none
    | some lh =>
      match h2 : right.tryUnwrap with
      | none => none
      | some rh =>
        match compile_expression lh, compile_expression rh with
        | some ls, some rs =>
          some ("(" ++ ls ++ " " ++ get_c_name op ++ " " ++ rs ++ ")")
        | _, _ => none
  | .Call func args =>
    match compile_expr_args args with
    | none => none
    | some inner => some (func ++ "(" ++ inner ++ ")")
  | .UnaryOp op exp =>
    match h : exp.tryUnwrap with
    | none => none
    | some ev =>
      match compile_expression ev with
      | none => none
      | some es => some ("(" ++ get_c_name op ++ es ++ ")")
termination_by e => sizeOf e
decreasing_by
  all_goals simp_wf
  all_goals first
    | (have hq := Rc.sizeOf_of_tryUnwrap _ _ h1; omega)
    | (have hq := Rc.sizeOf_of_tryUnwrap _ _ h2; omega)
    | (have hq := Rc.sizeOf_of_tryUnwrap _ _ h; omega)
    | omega

/-- The argument loop of the `Expression::Call` arm: arguments joined with
`", "`, the last one unseparated; each argument is unwrapped first. -/
def compile_expr_args : List (Rc Expression) → Option String
  | [] => some ""
  | [arg] =>
    match h : arg.tryUnwrap with
    | none => none
    | some av => compile_expression av
  | arg :: rest =>
    match h : arg.tryUnwrap with
    | none => none
    | some av =>
      match compile_expression av with
      | none => none
      | some s =>
        match compile_expr_args rest with
        | none => none
        | some tail => some (s ++ ", " ++ tail)
termination_by l => sizeOf l
decreasing_by
  all_goals simp_wf
  all_goals first
    | (have hq := Rc.sizeOf_of_tryUnwrap _ _ h; omega)
    | omega

end

/-- The argument loop of the `Statement::Call` arm: these arguments are plain
expressions (no `Rc` layer), joined with `", "`, the last one unseparated. -/
def compile_stmt_args : List Expression → Option String
  | [] => some ""
  | [arg] => compile_expression arg
  | arg :: rest =>
    match compile_expression arg with
    | none => none
    | some s =>
      match compile_stmt_args rest with
      | none => none
      | some tail => some (s ++ ", " ++ tail)

mutual

/-- The statement emitter `compile_statement`: appends to the buffer `out`
and returns the extended buffer, `none` modelling the `panic!` arms. -/
def compile_statement (out : String) : Statement → Int → Option String
  | .Return exp, indent =>
    match compile_expression exp with
    | none => none
    | some es => some (out ++ replicate INDENT indent ++ "return " ++ es ++ ";")
  | .Do block, indent =>
    match compile_do_block (out ++ "\n" ++ replicate INDENT indent ++ "\x7b\n") block (indent + 1) with
    | none => none
    | some o => some (o ++ "\n" ++ replicate INDENT indent ++ "\x7d\n")
  | .Call func args, indent =>
    match compile_stmt_args args with
    | none => none
    | some inner => some (out ++ replicate INDENT indent ++ func ++ "(" ++ inner ++ ");\n")
  | .Var ident, indent =>
    some (out ++ replicate INDENT indent ++ "long " ++ ident ++ ";\n")
  | .Set ident expr, indent =>
    match compile_expression expr with
    | none => none
    | some es => some (out ++ replicate INDENT indent ++ ident ++ " = " ++ es ++ ";\n")
  | .Change ident expr, indent =>
    match compile_expression expr with
    | none => none
    | some es => some (out ++ replicate INDENT indent ++ ident ++ " += " ++ es ++ ";\n")
  | .If cond if_clause else_clause, indent =>
    match compile_expression cond with
    | none => none
    | some cs =>
      match h1 : if_clause.tryUnwrap with
      | none => none
      | some ifv =>
        match compile_statement (out ++ replicate INDENT indent ++ "if " ++ " " ++ cs ++ " ") ifv (indent + 1) with
        | none => none
        | some o1 =>
          match h2 : else_clause.tryUnwrap with
          | none => none
          | some none => some o1
          | some (some elseBody) =>
            compile_statement (o1 ++ replicate INDENT indent ++ "else ") elseBody (indent + 1)
termination_by s _ => sizeOf s
decreasing_by
  all_goals simp_wf
  all_goals first
    | (have hq := Rc.sizeOf_of_tryUnwrap _ _ h1; omega)
    | (have hq := Rc.sizeOf_of_tryUnwrap _ _ h2; simp only [Option.some.sizeOf_spec] at hq; omega)
    | omega

/-- The child loop of the `Statement::Do` arm: each child is unwrapped and
compiled in order, threading the buffer; the caller passes `indent + 1`. -/
def compile_do_block (out : String) : List (Rc Statement) → Int → Option String
  | [], _ => some out
  | sub :: rest, indent =>
    match h : sub.tryUnwrap with
    | none => none
    | some sv =>
      match compile_statement out sv indent with
      | none => none
      | some o => compile_do_block o rest indent
termination_by l _ => sizeOf l
decreasing_by
  all_goals simp_wf
  all_goals first
    | (have hq := Rc.sizeOf_of_tryUnwrap _ _ h; omega)
    | omega

end

/-- The parameter loop of `compile_function`: `split_last` renders every
parameter but the last as `long p, ` and the last as `long p`. -/
def sig_params : List String → String
  | [] => ""
  | [last] => "long " ++ last
  | param :: rest => "long " ++ param ++ ", " ++ sig_params rest

/-- The `if let Some(sig)` block of `compile_function`: an absent signature
contributes no text, a present one its rendered parameter list. -/
def signature_text : Option (List String) → String
  | none => ""
  | some sig => sig_params sig

/-- The function emitter `compile_function`. -/
def compile_function (out : String) (func : Function) : Option String :=
  let out1 := write_newline out
  let out2 := out1 ++ (if func.name = "main" then "int " else "long ")
  let out3 := out2 ++ func.name
  let out4 := out3 ++ "("
  let out5 := out4 ++ signature_text func.signature
  let out6 := out5 ++ ")"
  compile_statement out6 func.code 0

/-- The loop of `compile_ast` over the program's functions. -/
def compile_funcs (out : String) : List Function → Option String
  | [] => some out
  | f :: rest =>
    match compile_function out f with
    | none => none
    | some o => compile_funcs o rest

/-- The program emitter `compile_ast`: prolog, every function, epilog. -/
def compile_ast (out : String) (ast : Program) : Option String :=
  match compile_funcs (out ++ PROLOG) ast with
  | none => none
  | some o => some (o ++ EPILOG)

/-- Concatenation of a list of fragments (used to state whole-program
output-shape theorems). -/
def concatAll : List String → String
  | [] => ""
  | s :: rest => s ++ concatAll rest

/-- The emission of each function into its own empty buffer, in input
order (used to state the whole-program output-shape theorem). -/
def compile_each : List Function → Option (List String)
  | [] => some []
  | f :: rest =>
    match compile_function ("") f with
    | none => none
    | some e =>
      match compile_each rest with
      | none => none
      | some es => some (e :: es)

/-- Decidable string-prefix test on the underlying character lists (used to
state indentation-prefix properties). -/
def strPrefix (p s : String) : Bool := p.data.isPrefixOf s.data

mutual

/-- Static uniqueness of every shared-ownership reference inside an
expression: every `Rc` that `compile_expression` will unwrap has count 1. -/
def exprUnique : Expression → Bool
  | .Integer _ => true
  | .Ident _ => true
  | .BinaryOp _ left right =>
    left.count == 1 && right.count == 1 && exprUnique left.value && exprUnique right.value
  | .Call _ args => exprArgsUnique args
  | .UnaryOp _ exp => exp.count == 1 && exprUnique exp.value
termination_by e => sizeOf e
decreasing_by
  all_goals simp_wf
  all_goals first
    | (have hq := Rc.sizeOf_value left; omega)
    | (have hq := Rc.sizeOf_value right; omega)
    | (have hq := Rc.sizeOf_value exp; omega)
    | omega

/-- Uniqueness of every reference in a list of `Rc`-wrapped arguments. -/
def exprArgsUnique : List (Rc Expression) → Bool
  | [] => true
  | arg :: rest => arg.count == 1 && exprUnique arg.value && exprArgsUnique rest
termination_by l => sizeOf l
decreasing_by
  all_goals simp_wf
  all_goals first
    | (have hq := Rc.sizeOf_value arg; omega)
    | omega

end

mutual

/-- Static uniqueness of every shared-ownership reference inside a
statement: every `Rc` that `compile_statement` will unwrap has count 1. -/
def stmtUnique : Statement → Bool
  | .Return exp => exprUnique exp
  | .Do block => blockUnique block
  | .Call _ args => args.all exprUnique
  | .Var _ => true
  | .Set _ expr => exprUnique expr
  | .Change _ expr => exprUnique expr
  | .If cond if_clause else_clause =>
    exprUnique cond && if_clause.count == 1 && stmtUnique if_clause.value &&
      else_clause.count == 1 &&
      (match h : else_clause.value with
       | none => true
       | some s => stmtUnique s)
termination_by s => sizeOf s
decreasing_by
  all_goals simp_wf
  all_goals first
    | (have hq := Rc.sizeOf_value if_clause; omega)
    | (have h5 := Rc.sizeOf_value else_clause;
       have h6 : sizeOf else_clause.value = 1 + sizeOf s := by
         rw [h]; simp only [Option.some.sizeOf_spec];
       omega)
    | omega

/-- Uniqueness of every reference in a `Do` block's child list. -/
def blockUnique : List (Rc Statement) → Bool
  | [] => true
  | sub :: rest => sub.count == 1 && stmtUnique sub.value && blockUnique rest
termination_by l => sizeOf l
decreasing_by
  all_goals simp_wf
  all_goals first
    | (have hq := Rc.sizeOf_value sub; omega)
    | omega

end

/-- Uniqueness of every reference inside a function. -/
def funcUnique (f : Function) : Bool := stmtUnique f.code

/-- Uniqueness of every reference inside a whole program. -/
def progUnique (p : Program) : Bool := p.all funcUnique

/-- Guard used by the checked statement emitter: replication is performed
only for non-negative counts, `none` standing for the divergence of the
source `replicate` on a negative count. -/
def replicateChk (s : String) (t : Int) : Option String :=
  if 0 ≤ t then some (replicate s t) else none

mutual

/-- Checked copy of `compile_statement` whose every replication request goes
through `replicateChk`: it aborts if any call would replicate a negative
count.  Claim C10 proves it agrees with `compile_statement` from any
non-negative depth. -/
def compile_statement_chk (out : String) : Statement → Int → Option String
  | .Return exp, indent =>
    match replicateChk INDENT indent with
    | none => none
    | some ind =>
      match compile_expression exp with
      | none => none
      | some es => some (out ++ ind ++ "return " ++ es ++ ";")
  | .Do block, indent =>
    match replicateChk INDENT indent with
    | none => none
    | some ind =>
      match compile_do_block_chk (out ++ "\n" ++ ind ++ "\x7b\n") block (indent + 1) with
      | none => none
      | some o => some (o ++ "\n" ++ ind ++ "\x7d\n")
  | .Call func args, indent =>
    match replicateChk INDENT indent with
    | none => none
    | some ind =>
      match compile_stmt_args args with
      | none => none
      | some inner => some (out ++ ind ++ func ++ "(" ++ inner ++ ");\n")
  | .Var ident, indent =>
    match replicateChk INDENT indent with
    | none => none
    | some ind => some (out ++ ind ++ "long " ++ ident ++ ";\n")
  | .Set ident expr, indent =>
    match replicateChk INDENT indent with
    | none => none
    | some ind =>
      match compile_expression expr with
      | none => none
      | some es => some (out ++ ind ++ ident ++ " = " ++ es ++ ";\n")
  | .Change ident expr, indent =>
    match replicateChk INDENT indent with
    | none => none
    | some ind =>
      match compile_expression expr with
      | none => none
      | some es => some (out ++ ind ++ ident ++ " += " ++ es ++ ";\n")
  | .If cond if_clause else_clause, indent =>
    match replicateChk INDENT indent with
    | none => none
    | some ind =>
      match compile_expression cond with
      | none => none
      | some cs =>
        match h1 : if_clause.tryUnwrap with
        | none => none
        | some ifv =>
          match compile_statement_chk (out ++ ind ++ "if " ++ " " ++ cs ++ " ") ifv (indent + 1) with
          | none => none
          | some o1 =>
            match h2 : else_clause.tryUnwrap with
            | none => none
            | some none => some o1
            | some (some elseBody) =>
              compile_statement_chk (o1 ++ ind ++ "else ") elseBody (indent + 1)
termination_by s _ => sizeOf s
decreasing_by
  all_goals simp_wf
  all_goals first
    | (have hq := Rc.sizeOf_of_tryUnwrap _ _ h1; omega)
    | (have hq := Rc.sizeOf_of_tryUnwrap _ _ h2; simp only [Option.some.sizeOf_spec] at hq; omega)
    | omega

/-- Checked copy of `compile_do_block`, threading through the checked
statement emitter. -/
def compile_do_block_chk (out : String) : List (Rc Statement) → Int → Option String
  | [], _ => some out
  | sub :: rest, indent =>
    match h : sub.tryUnwrap with
    | none => none
    | some sv =>
      match compile_statement_chk out sv indent with
      | none => none
      | some o => compile_do_block_chk o rest indent
termination_by l _ => sizeOf l
decreasing_by
  all_goals simp_wf
  all_goals first
    | (have hq := Rc.sizeOf_of_tryUnwrap _ _ h; omega)
    | omega

end

/-- Evaluation of `replicate` at count 0. -/
theorem replicate_zero (s : String) : replicate s 0 = "" := by
  rw [replicate]; simp

/-- Evaluation of `replicate` at count 1. -/
theorem replicate_one (s : String) : replicate s 1 = s := by
  rw [replicate]; simp [replicate_zero]

/-- Locality of the statement emitter: emitting into an extended buffer
appends the same text.  Proved by functional induction over the mutual
recursion of `compile_statement` and `compile_do_block`. -/
theorem compile_statement_append :
    ∀ (out : String) (s : Statement) (d : Int) (pre : String),
      compile_statement (pre ++ out) s d =
        (compile_statement out s d).map (fun t => pre ++ t) := by
  refine compile_statement.induct
    (fun out s d => ∀ pre, compile_statement (pre ++ out) s d =
      (compile_statement out s d).map (fun t => pre ++ t))
    (fun out l d => ∀ pre, compile_do_block (pre ++ out) l d =
      (compile_do_block out l d).map (fun t => pre ++ t))
    ?_ ?_ ?_ ?_ ?_ ?_ ?_ ?_ ?_ ?_ ?_ ?_ ?_ ?_ ?_ ?_ ?_ ?_ ?_ ?_ ?_
  all_goals intros
  all_goals try simp_all [compile_statement, compile_do_block, String.append_assoc]
  all_goals intro pre
  all_goals (repeat' split) <;> try simp_all [String.append_assoc]
  all_goals subst_vars
  all_goals simp_all [String.append_assoc]

/-- Locality of the block emitter, by induction on the child list. -/
theorem compile_do_block_append (l : List (Rc Statement)) :
    ∀ (out : String) (d : Int) (pre : String),
      compile_do_block (pre ++ out) l d =
        (compile_do_block out l d).map (fun t => pre ++ t) := by
  induction l with
  | nil => intro out d pre; simp [compile_do_block]
  | cons sub rest ih =>
    intro out d pre
    simp only [compile_do_block]
    split <;> try simp_all
    rw [compile_statement_append]
    cases h : compile_statement out _ d <;> simp [ih]

/-- Locality of the function emitter. -/
theorem compile_function_append (f : Function) (out pre : String) :
    compile_function (pre ++ out) f = (compile_function out f).map (fun t => pre ++ t) := by
  simp only [compile_function, write_newline, String.append_assoc, compile_statement_append]

/-- A successful statement emission extends the buffer it was given. -/
theorem compile_statement_extends (out : String) (s : Statement) (d : Int) (r : String)
    (h : compile_statement out s d = some r) : ∃ t, r = out ++ t := by
  have h2 := compile_statement_append ("") s d out
  rw [String.append_empty] at h2
  rw [h2] at h
  cases h3 : compile_statement ("") s d with
  | none => rw [h3] at h; cases h
  | some t => rw [h3] at h; exact ⟨t, by cases h; rfl⟩

/-- A successful block emission extends the buffer it was given. -/
theorem compile_do_block_extends (out : String) (l : List (Rc Statement)) (d : Int) (r : String)
    (h : compile_do_block out l d = some r) : ∃ t, r = out ++ t := by
  have h2 := compile_do_block_append l ("") d out
  rw [String.append_empty] at h2
  rw [h2] at h
  cases h3 : compile_do_block ("") l d with
  | none => rw [h3] at h; cases h
  | some t => rw [h3] at h; exact ⟨t, by cases h; rfl⟩

/-- A successful run of the function loop decomposes into the per-function
emissions of `compile_each`, concatenated after the initial buffer. -/
theorem compile_funcs_decomp : ∀ (fs : List Function) (out r : String),
    compile_funcs out fs = some r →
    ∃ es : List String,
      compile_each fs = some es ∧
      r = out ++ concatAll es := by
  intro fs
  induction fs with
  | nil =>
    intro out r h
    simp only [compile_funcs] at h
    exact ⟨[], rfl, by rw [← Option.some_inj.mp h, concatAll, String.append_empty]⟩
  | cons f rest ih =>
    intro out r h
    simp only [compile_funcs] at h
    cases hf : compile_function out f with
    | none => rw [hf] at h; cases h
    | some o =>
      rw [hf] at h
      have hf0 : compile_function out f = (compile_function ("") f).map (fun t => out ++ t) := by
        have h9 := compile_function_append f ("") out
        rw [String.append_empty] at h9
        exact h9
      rw [hf0] at hf
      cases he : compile_function ("") f with
      | none => rw [he] at hf; cases hf
      | some e =>
        rw [he] at hf
        rw [show Option.map (fun t => out ++ t) (some e) = some (out ++ e) from rfl] at hf
        obtain ⟨es, hes, hr⟩ := ih o r h
        refine ⟨e :: es, ?_, ?_⟩
        · unfold compile_each
          rw [he, hes]
        · rw [hr, ← Option.some_inj.mp hf, concatAll]
          simp [String.append_assoc]

/-- `compile_each` produces exactly one emission per input function. -/
theorem compile_each_length : ∀ (fs : List Function) (es : List String),
    compile_each fs = some es → es.length = fs.length := by
  intro fs
  induction fs with
  | nil => intro es h; cases h; rfl
  | cons f rest ih =>
    intro es h
    simp only [compile_each] at h
    split at h
    · cases h
    · split at h
      · cases h
      · cases h
        simp [ih _ (by assumption)]

/-- Every emission produced by `compile_each` comes from some function. -/
theorem compile_each_mem : ∀ (fs : List Function) (es : List String),
    compile_each fs = some es → ∀ e ∈ es, ∃ f, compile_function ("") f = some e := by
  intro fs
  induction fs with
  | nil => intro es h; cases h; intro e he; cases he
  | cons f rest ih =>
    intro es h
    simp only [compile_each] at h
    split at h
    · cases h
    · split at h
      · cases h
      · cases h
        intro e he
        rcases List.mem_cons.mp he with he1 | he2
        · exact ⟨f, by rw [he1]; assumption⟩
        · exact ih _ (by assumption) e he2

/-- Every function emission starts with the `write_newline` separator. -/
theorem compile_function_newline (f : Function) (e : String)
    (h : compile_function ("") f = some e) : ∃ t, e = NEW_LINE ++ t := by
  simp only [compile_function, write_newline] at h
  obtain ⟨t, ht⟩ := compile_statement_extends _ _ _ _ h
  refine ⟨(if f.name = "main" then "int " else "long ") ++ f.name ++ "(" ++
    signature_text f.signature ++ ")" ++ t, ?_⟩
  rw [ht]
  have hemp : ∀ s : String, "" ++ s = s := fun s => rfl
  simp only [String.append_assoc, hemp]

/-- Expression emission succeeds whenever every reference is unique. -/
theorem compile_expression_total :
    ∀ e : Expression, exprUnique e = true → (compile_expression e).isSome := by
  apply compile_expression.induct
    (fun e => exprUnique e = true → (compile_expression e).isSome)
    (fun l => exprArgsUnique l = true → (compile_expr_args l).isSome)
  all_goals intros
  all_goals try simp_all [compile_expression, compile_expr_args, exprUnique, exprArgsUnique, Rc.tryUnwrap]
  all_goals (repeat' split) <;> try simp_all [Option.isSome_iff_exists]
  all_goals subst_vars
  all_goals try simp_all [Option.isSome_iff_exists]
  all_goals (rename_i ih2 ih1 hu hx
             obtain ⟨l1, hl1⟩ := ih2
             obtain ⟨l2, hl2⟩ := ih1
             exact hx l1 l2 hl1 hl2)

/-- Statement-call argument emission succeeds under uniqueness. -/
theorem compile_stmt_args_total :
    ∀ args : List Expression, args.all exprUnique = true → (compile_stmt_args args).isSome := by
  intro args
  induction args with
  | nil => intro h; simp [compile_stmt_args]
  | cons e rest ih =>
    intro h
    simp only [List.all_cons, Bool.and_eq_true] at h
    obtain ⟨he, hrest⟩ := h
    have h1 := compile_expression_total e he
    have h2 := ih hrest
    cases rest with
    | nil =>
      simp only [compile_stmt_args]
      exact h1
    | cons r2 rest2 =>
      simp only [compile_stmt_args]
      rw [Option.isSome_iff_exists] at h1 h2
      obtain ⟨s1, hs1⟩ := h1
      obtain ⟨s2, hs2⟩ := h2
      rw [hs1, hs2]
      rfl

/-- Statement emission succeeds whenever every reference is unique. -/
theorem compile_statement_total :
    ∀ (out : String) (s : Statement) (d : Int), stmtUnique s = true → (compile_statement out s d).isSome := by
  apply compile_statement.induct
    (fun out s d => stmtUnique s = true → (compile_statement out s d).isSome)
    (fun out l d => blockUnique l = true → (compile_do_block out l d).isSome)
  all_goals intros
  all_goals try simp_all [compile_statement, compile_do_block, stmtUnique, blockUnique, Rc.tryUnwrap,
    compile_expression_total, compile_stmt_args_total]
  all_goals (repeat' split) <;> try simp_all [Option.isSome_iff_exists]
  all_goals subst_vars
  all_goals try simp_all [Option.isSome_iff_exists]
  all_goals first
    | (rename_i hx hu
       have h9 := compile_expression_total _ hu
       rw [hx] at h9
       cases h9)
    | (rename_i hx hu
       have h9 := compile_stmt_args_total _ (List.all_eq_true.mpr hu)
       rw [hx] at h9
       cases h9)
    | (rename_i hx hu
       obtain ⟨⟨⟨⟨hc, h61⟩, h62⟩, h63⟩, h64⟩ := hu
       have h9 := compile_expression_total _ hc
       rw [hx] at h9
       cases h9)
    | (rename_i h1 h2 hu ih heq
       obtain ⟨h5, h6⟩ := hu
       split at h6 <;> simp_all)

/-- Function emission succeeds whenever every reference is unique. -/
theorem compile_function_total (out : String) (f : Function) (h : funcUnique f = true) :
    (compile_function out f).isSome := by
  simp only [compile_function]
  exact compile_statement_total _ _ _ h

/-- The function loop succeeds whenever every reference is unique. -/
theorem compile_funcs_total :
    ∀ (fs : List Function) (out : String), fs.all funcUnique = true → (compile_funcs out fs).isSome := by
  intro fs
  induction fs with
  | nil => intro out h; simp [compile_funcs]
  | cons f rest ih =>
    intro out h
    simp only [List.all_cons, Bool.and_eq_true] at h
    simp only [compile_funcs]
    have h1 := compile_function_total out f h.1
    rw [Option.isSome_iff_exists] at h1
    obtain ⟨o, ho⟩ := h1
    rw [ho]
    exact ih o h.2

/-- Appending one more copy on the right of a replicated concatenation. -/
theorem concatAll_replicate_snoc (m : Nat) (s : String) :
    concatAll (List.replicate m s) ++ s = concatAll (List.replicate (m + 1) s) := by
  induction m with
  | zero =>
    have hemp : ∀ u : String, "" ++ u = u := fun u => rfl
    simp [concatAll, String.append_empty, hemp]
  | succ k ih =>
    simp only [List.replicate, concatAll] at ih ⊢
    rw [String.append_assoc, ih]

/-- For a non-negative count the fuelled source recursion terminates within
`n + 1` steps, agrees with the total `replicate`, and yields exactly `n`
concatenated copies. -/
theorem replicate_nonneg_eq : ∀ (n : Nat) (s : String),
    replicateF (n + 1) s (n : Int) = some (replicate s (n : Int)) ∧
    replicate s (n : Int) = concatAll (List.replicate n s) := by
  intro n
  induction n with
  | zero =>
    intro s
    constructor
    · rw [replicateF, replicate]
      simp
    · rw [replicate]
      simp [List.replicate, concatAll]
  | succ m ih =>
    intro s
    have hm := ih s
    have hne : ((m : Int) + 1) ≠ 0 := by omega
    have hnl : ¬ ((m : Int) + 1) < 0 := by omega
    have hcast : ((m + 1 : Nat) : Int) = (m : Int) + 1 := by push_cast; ring
    constructor
    · rw [replicateF, replicate]
      rw [hcast]
      simp only [hne, hnl, if_false, if_neg hne, if_neg hnl]
      rw [show (m : Int) + 1 - 1 = (m : Int) by ring, hm.1]
    · rw [replicate]
      rw [hcast]
      simp only [if_neg hne, if_neg hnl]
      rw [show (m : Int) + 1 - 1 = (m : Int) by ring, hm.2]
      exact concatAll_replicate_snoc m s

/-- For a negative count the fuelled source recursion never produces a
result, whatever the fuel: the source `replicate` diverges there. -/
theorem replicateF_neg : ∀ (fuel : Nat) (s : String) (t : Int), t < 0 → replicateF fuel s t = none := by
  intro fuel
  induction fuel with
  | zero => intro s t h; rfl
  | succ m ih =>
    intro s t h
    rw [replicateF]
    rw [if_neg (by omega)]
    rw [ih s (t - 1) (by omega)]

/-- From any non-negative starting depth the checked emitter (which refuses
to replicate a negative count) behaves exactly like the real one: no call
with a negative count is ever made. -/
theorem compile_statement_chk_eq :
    ∀ (out : String) (s : Statement) (d : Int), 0 ≤ d →
      compile_statement_chk out s d = compile_statement out s d := by
  have hstep : ∀ z : Int, 0 ≤ z → 0 ≤ z + 1 := fun z hz => by omega
  apply compile_statement_chk.induct
    (fun out s d => 0 ≤ d → compile_statement_chk out s d = compile_statement out s d)
    (fun out l d => 0 ≤ d → compile_do_block_chk out l d = compile_do_block out l d)
  all_goals intros
  all_goals try simp_all [compile_statement, compile_statement_chk, compile_do_block,
    compile_do_block_chk, replicateChk, hstep]
  all_goals (repeat' split) <;> try simp_all [hstep]
  all_goals subst_vars
  all_goals try simp_all [hstep]

/-- Concrete evaluation: the empty `main` function emission. -/
theorem eval_main_empty :
    compile_function ("") ⟨"main", none, .Do []⟩ = some ("\nint main()\n\x7b\n\n\x7d\n") := by
  simp [compile_function, compile_statement, compile_do_block, write_newline,
    NEW_LINE, INDENT, signature_text, replicate_zero]

/-- Concrete evaluation: the whole program with a single empty `main`. -/
theorem eval_main_program :
    compile_ast ("") [⟨"main", none, .Do []⟩] =
      some (PROLOG ++ "\nint main()\n\x7b\n\n\x7d\n" ++ EPILOG) := by
  simp [compile_ast, compile_funcs, compile_function, compile_statement, compile_do_block,
    write_newline, signature_text, NEW_LINE, INDENT, replicate_zero, String.append_assoc]

/-- C1: for every Program generated into an empty output buffer, the
produced text is exactly the fixed `PROLOG` (which contains the `display`
support routine), followed by exactly one emission per input Function in
input order, followed by the fixed `EPILOG`; every function emission begins
with the separating newline written by `write_newline`. -/
theorem claim1_program_output_shape (prog : Program) (r : String)
    (h : compile_ast ("") prog = some r) :
    ∃ es : List String,
      compile_each prog = some es ∧
      es.length = prog.length ∧
      (∀ e ∈ es, ∃ t, e = NEW_LINE ++ t) ∧
      r = PROLOG ++ concatAll es ++ EPILOG := by
  simp only [compile_ast] at h
  cases hc : compile_funcs ("" ++ PROLOG) prog with
  | none => rw [hc] at h; cases h
  | some o =>
    rw [hc] at h
    obtain ⟨es, hes, ho⟩ := compile_funcs_decomp prog PROLOG o hc
    refine ⟨es, hes, compile_each_length _ _ hes, ?_, ?_⟩
    · intro e he
      obtain ⟨f, hf⟩ := compile_each_mem _ _ hes e he
      exact compile_function_newline f e hf
    · rw [← Option.some_inj.mp h, ho]

/-- Witness for C1 at the one-function program containing an empty `main`. -/
theorem claim1_witness :
    ∃ es : List String,
      compile_each [(⟨"main", none, .Do []⟩ : Function)] = some es ∧
      es.length = [(⟨"main", none, .Do []⟩ : Function)].length ∧
      (∀ e ∈ es, ∃ t, e = NEW_LINE ++ t) ∧
      PROLOG ++ "\nint main()\n\x7b\n\n\x7d\n" ++ EPILOG =
        PROLOG ++ concatAll es ++ EPILOG :=
  claim1_program_output_shape _ _ eval_main_program

/-- C2: for every Program in which every shared-ownership reference has
strong count 1 when the generator consumes it (`progUnique`), generation
succeeds: no `Rc::try_unwrap` failure arm (modelled by `none`) is reached. -/
theorem claim2_unique_ownership_generates (p : Program) (h : progUnique p = true) :
    ∃ r, compile_ast ("") p = some r := by
  simp only [compile_ast]
  have h1 := compile_funcs_total p ("" ++ PROLOG) h
  rw [Option.isSome_iff_exists] at h1
  obtain ⟨o, ho⟩ := h1
  rw [ho]
  exact ⟨o ++ EPILOG, rfl⟩

/-- Witness for C2 at the one-function program containing an empty `main`. -/
theorem claim2_witness :
    ∃ r, compile_ast ("") [(⟨"main", none, .Do []⟩ : Function)] = some r :=
  claim2_unique_ownership_generates _ (by simp [progUnique, funcUnique, stmtUnique, blockUnique])

/-- C3: every successfully emitted function renders, after the separating
newline, the return type chosen solely by name — `int ` exactly when the
name is `main`, `long ` otherwise — followed by the name, the parenthesised
signature, and the body text. -/
theorem claim3_return_type_by_name (f : Function) (r : String)
    (h : compile_function ("") f = some r) :
    ∃ t, r = NEW_LINE ++ (if f.name = "main" then "int " else "long ") ++ f.name ++ "(" ++
      signature_text f.signature ++ ")" ++ t := by
  simp only [compile_function, write_newline] at h
  obtain ⟨t, ht⟩ := compile_statement_extends _ _ _ _ h
  exact ⟨t, ht⟩

/-- Witness for C3 at the empty `main` function. -/
theorem claim3_witness :
    ∃ t, ("\nint main()\n\x7b\n\n\x7d\n" : String) =
      NEW_LINE ++ (if ("main" : String) = "main" then "int " else "long ") ++ "main" ++ "(" ++
        signature_text none ++ ")" ++ t :=
  claim3_return_type_by_name ⟨"main", none, .Do []⟩ _ eval_main_empty

/-- C4: the operator table is a total function on the 17-member `Operator`
enumeration with no error path (it is a total Lean function by
construction), and maps each operator exactly as listed. -/
theorem claim4_operator_table :
    get_c_name Operator.Add = "+" ∧ get_c_name Operator.Sub = "-" ∧
    get_c_name Operator.Mul = "*" ∧ get_c_name Operator.Div = "/" ∧
    get_c_name Operator.Negate = "-" ∧ get_c_name Operator.Equals = "==" ∧
    get_c_name Operator.NotEquals = "!=" ∧ get_c_name Operator.Gt = ">" ∧
    get_c_name Operator.Lt = "<" ∧ get_c_name Operator.Gte = ">=" ∧
    get_c_name Operator.Lte = "<=" ∧ get_c_name Operator.LogicalAnd = "&&" ∧
    get_c_name Operator.LogicalOr = "||" ∧ get_c_name Operator.LogicalNot = "!" ∧
    get_c_name Operator.BinaryAnd = "&" ∧ get_c_name Operator.BinaryOr = "|" ∧
    get_c_name Operator.BinaryNot = "~" := by decide

/-- C5: a BinaryOp whose operands unwrap and render emits exactly
`(<left> <op> <right>)` and a UnaryOp emits exactly `(<op><operand>)`:
one unconditional pair of wrapping parentheses in each case, regardless of
the operands. -/
theorem claim5_expression_parenthesization (op : Operator) :
    (∀ (left right : Rc Expression) (lv rv : Expression) (ls rs : String),
       left.tryUnwrap = some lv → right.tryUnwrap = some rv →
       compile_expression lv = some ls → compile_expression rv = some rs →
       compile_expression (.BinaryOp op left right) =
         some ("(" ++ ls ++ " " ++ get_c_name op ++ " " ++ rs ++ ")")) ∧
    (∀ (exp : Rc Expression) (ev : Expression) (es : String),
       exp.tryUnwrap = some ev → compile_expression ev = some es →
       compile_expression (.UnaryOp op exp) =
         some ("(" ++ get_c_name op ++ es ++ ")")) := by
  constructor
  · intro left right lv rv ls rs h1 h2 h3 h4
    simp only [compile_expression]
    split <;> simp_all
    split <;> simp_all
  · intro exp ev es h1 h2
    simp only [compile_expression]
    split <;> simp_all

/-- Witness for C5 at `1 + x`. -/
theorem claim5_witness :
    compile_expression (.BinaryOp .Add ⟨1, .Integer 1⟩ ⟨1, .Ident "x"⟩) =
      some ("(" ++ "1l" ++ " " ++ get_c_name Operator.Add ++ " " ++ "x" ++ ")") := by
  have h := (claim5_expression_parenthesization Operator.Add).1
    ⟨1, .Integer 1⟩ ⟨1, .Ident "x"⟩ (.Integer 1) (.Ident "x")
    ("1l") ("x") (by simp [Rc.tryUnwrap]) (by simp [Rc.tryUnwrap])
    (by simp [compile_expression]; decide) (by simp [compile_expression])
  exact h

/-- C6: an integer literal renders as its decimal digits (a leading minus
sign for a negative value, then the digits of its absolute value)
immediately followed by the long suffix `l`, for every signed 64-bit
value. -/
theorem claim6_integer_rendering (v : Int) (h1 : -(2 ^ 63) ≤ v) (h2 : v ≤ 2 ^ 63 - 1) :
    compile_expression (.Integer v) =
      some ((if v < 0 then "-" ++ toString v.natAbs else toString v.natAbs) ++ "l") := by
  have he : compile_expression (.Integer v) = some (toString v ++ "l") := by
    simp [compile_expression]
  rw [he]
  have ht : toString v = (if v < 0 then "-" ++ toString v.natAbs else toString v.natAbs) := by
    cases v with
    | ofNat m =>
      rw [if_neg (by exact Int.not_lt.mpr (Int.ofNat_zero_le m))]
      simp [toString, Int.repr, Int.natAbs]
    | negSucc m =>
      rw [if_pos (Int.negSucc_lt_zero m)]
      simp [toString, Int.repr, Int.natAbs]
  rw [ht]

/-- Witness for C6 at the minimum 64-bit value. -/
theorem claim6_witness :
    compile_expression (.Integer (-9223372036854775808)) =
      some ((if (-9223372036854775808 : Int) < 0 then
               "-" ++ toString (-9223372036854775808 : Int).natAbs
             else toString (-9223372036854775808 : Int).natAbs) ++ "l") :=
  claim6_integer_rendering _ (by norm_num) (by norm_num)

/-- Counterexample to C7 as stated: at depth 0 with condition `x` and
if-branch `return 0`, the emitted text is `if  x     return 0l;` — the
token `if ` is followed by a second space (the source formats the condition
as ` <cond> `), not immediately by the rendered condition, so the output
differs from the claimed `if x    return 0l;`. -/
theorem claim7_counterexample :
    compile_statement ("") (.If (.Ident "x") ⟨1, .Return (.Integer 0)⟩ ⟨1, none⟩) 0 =
      some ("if  x     return 0l;") ∧
    ("if  x     return 0l;" : String) ≠ "if x    return 0l;" := by
  constructor
  · simp [compile_statement, compile_expression, Rc.tryUnwrap, replicate_zero, replicate_one, INDENT]
    decide
  · decide

/-- C7 (amended): an If statement at depth `d` emits the indent prefix,
then `if ` followed by one further space, the rendered condition, and a
trailing space; then the if-branch at depth `d + 1`; and — only when the
unwrapped else clause is present — the indent prefix, `else `, and the
else-branch at depth `d + 1`.  Both branch `Rc`s are unwrapped. -/
theorem claim7_if_rendering (out : String) (d : Int) (cond : Expression)
    (if_clause : Rc Statement) (else_clause : Rc (Option Statement))
    (cs : String) (ifv : Statement) (eo : Option Statement)
    (hc : compile_expression cond = some cs)
    (hi : if_clause.tryUnwrap = some ifv)
    (he : else_clause.tryUnwrap = some eo) :
    compile_statement out (.If cond if_clause else_clause) d =
      match compile_statement (out ++ replicate INDENT d ++ "if " ++ " " ++ cs ++ " ") ifv (d + 1), eo with
      | none, _ => none
      | some o1, none => some o1
      | some o1, some elseBody =>
        compile_statement (o1 ++ replicate INDENT d ++ "else ") elseBody (d + 1) := by
  simp only [compile_statement, hc]
  (repeat' split) <;> simp_all

/-- Witness for C7 (amended) at a concrete If statement. -/
theorem claim7_witness :
    compile_statement ("") (.If (.Ident "x") ⟨1, .Return (.Integer 0)⟩ ⟨1, none⟩) 0 =
      some ("if  x     return 0l;") := by
  have h := claim7_if_rendering ("") 0 (.Ident "x") ⟨1, .Return (.Integer 0)⟩ ⟨1, none⟩
    ("x") (.Return (.Integer 0)) none
    (by simp [compile_expression]) (by simp [Rc.tryUnwrap]) (by simp [Rc.tryUnwrap])
  rw [h]
  simp [compile_statement, compile_expression, replicate_zero, replicate_one, INDENT]
  decide

/-- Counterexample to C8 as stated: the emission of an (empty) `Do` block at
depth 1 is `\n    {\n\n    }\n`, which is not prefixed by the depth-1 indent
(it begins with a newline), so not every statement emitted at depth `d` is
prefixed with `d` indent units. -/
theorem claim8_counterexample :
    compile_statement ("") (.Do []) 1 = some ("\n    \x7b\n\n    \x7d\n") ∧
    strPrefix INDENT ("\n    \x7b\n\n    \x7d\n") = false := by
  constructor
  · simp [compile_statement, compile_do_block, INDENT, replicate_one]
  · decide

/-- C8 (amended): every statement other than a `Do` block is emitted with
exactly `d` indent units appended right after the buffer; a `Do` block is
emitted with a newline and then the `d` indent units (its brace lines carry
the depth-`d` indentation), and its children are emitted at depth `d + 1`. -/
theorem claim8_indentation :
    (∀ (out : String) (s : Statement) (d : Int) (r : String),
       compile_statement out s d = some r →
       (∀ block, s ≠ .Do block) →
       ∃ t, r = out ++ replicate INDENT d ++ t) ∧
    (∀ (out : String) (block : List (Rc Statement)) (d : Int) (r : String),
       compile_statement out (.Do block) d = some r →
       ∃ t, r = out ++ "\n" ++ replicate INDENT d ++ t) ∧
    (∀ (out : String) (block : List (Rc Statement)) (d : Int),
       compile_statement out (.Do block) d =
         (compile_do_block (out ++ "\n" ++ replicate INDENT d ++ "\x7b\n") block (d + 1)).map
           (fun o => o ++ "\n" ++ replicate INDENT d ++ "\x7d\n")) := by
  refine ⟨?_, ?_, ?_⟩
  · intro out s d r h hnd
    cases s with
    | Do block => exact absurd rfl (hnd block)
    | Return e =>
      simp only [compile_statement] at h
      split at h
      · cases h
      · rename_i es hes
        cases h
        exact ⟨"return " ++ es ++ ";", by simp [String.append_assoc]⟩
    | Call func args =>
      simp only [compile_statement] at h
      split at h
      · cases h
      · rename_i inner hinner
        cases h
        exact ⟨func ++ "(" ++ inner ++ ");\n", by simp [String.append_assoc]⟩
    | Var ident =>
      simp only [compile_statement] at h
      cases h
      exact ⟨"long " ++ ident ++ ";\n", by simp [String.append_assoc]⟩
    | Set ident e =>
      simp only [compile_statement] at h
      split at h
      · cases h
      · rename_i es hes
        cases h
        exact ⟨ident ++ " = " ++ es ++ ";\n", by simp [String.append_assoc]⟩
    | Change ident e =>
      simp only [compile_statement] at h
      split at h
      · cases h
      · rename_i es hes
        cases h
        exact ⟨ident ++ " += " ++ es ++ ";\n", by simp [String.append_assoc]⟩
    | If cond if_clause else_clause =>
      simp only [compile_statement] at h
      split at h
      · cases h
      · split at h
        · cases h
        · rename_i cs hcs ifv hifv
          split at h
          · cases h
          · rename_i o1 ho1
            obtain ⟨t1, ht1⟩ := compile_statement_extends _ _ _ _ ho1
            split at h
            · cases h
            · cases h
              exact ⟨"if " ++ " " ++ cs ++ " " ++ t1, by rw [ht1]; simp [String.append_assoc]⟩
            · rename_i elseBody helse
              obtain ⟨t2, ht2⟩ := compile_statement_extends _ _ _ _ h
              exact ⟨"if " ++ " " ++ cs ++ " " ++ t1 ++ replicate INDENT d ++ "else " ++ t2,
                by rw [ht2, ht1]; simp [String.append_assoc]⟩
  · intro out block d r h
    simp only [compile_statement] at h
    split at h
    · cases h
    · rename_i o ho
      cases h
      obtain ⟨t1, ht1⟩ := compile_do_block_extends _ _ _ _ ho
      exact ⟨"\x7b\n" ++ t1 ++ "\n" ++ replicate INDENT d ++ "\x7d\n",
        by rw [ht1]; simp [String.append_assoc]⟩
  · intro out block d
    simp only [compile_statement]
    cases hb : compile_do_block (out ++ "\n" ++ replicate INDENT d ++ "\x7b\n") block (d + 1) <;> simp

/-- Witness for C8 (amended) at a `Var` statement at depth 0. -/
theorem claim8_witness :
    ∃ t, ("long x;\n" : String) = "" ++ replicate INDENT 0 ++ t := by
  have h := claim8_indentation.1 ("") (.Var "x") 0 ("long x;\n")
    (by simp [compile_statement, replicate_zero])
    (by intro b hb; cases hb)
  exact h

/-- Counterexample to C9 as stated: the empty `main` function actually
emits `\nint main()\n{\n\n}\n` — a leading separator newline, the body
brace on its own line after the header, and a blank line inside the braces
— not the claimed `int main(){\n}\n`. -/
theorem claim9_counterexample :
    compile_function ("") ⟨"main", none, .Do []⟩ = some ("\nint main()\n\x7b\n\n\x7d\n") ∧
    ("\nint main()\n\x7b\n\n\x7d\n" : String) ≠ "int main()\x7b\n\x7d\n" := by
  constructor
  · exact eval_main_empty
  · decide

/-- C9 (amended): a `main` function with an absent or empty signature and
an empty `Do` body emits exactly `\nint main()\n{\n\n}\n`, with no
parameter tokens. -/
theorem claim9_empty_main (sig : Option (List String)) (h : sig = none ∨ sig = some []) :
    compile_function ("") ⟨"main", sig, .Do []⟩ = some ("\nint main()\n\x7b\n\n\x7d\n") := by
  rcases h with h | h <;>
    (subst h
     simp [compile_function, compile_statement, compile_do_block, write_newline,
       NEW_LINE, INDENT, signature_text, sig_params, replicate_zero])

/-- Witness for C9 (amended) at the absent signature. -/
theorem claim9_witness :
    compile_function ("") ⟨"main", none, .Do []⟩ = some ("\nint main()\n\x7b\n\n\x7d\n") :=
  claim9_empty_main none (Or.inl rfl)

/-- C10: the source `replicate` recursion, modelled by the fuelled
`replicateF`, terminates for every count `t ≥ 0` (within `t + 1` steps of
fuel) and returns exactly `t` concatenated copies; for `t < 0` it never
terminates (no fuel suffices); and from any non-negative starting depth the
statement emitter never requests a replication with a negative count — the
checked emitter that refuses such calls coincides with the real one. -/
theorem claim10_replicate_termination :
    (∀ (s : String) (t : Int), 0 ≤ t →
       replicateF (t.toNat + 1) s t = some (replicate s t) ∧
       replicate s t = concatAll (List.replicate t.toNat s)) ∧
    (∀ (fuel : Nat) (s : String) (t : Int), t < 0 → replicateF fuel s t = none) ∧
    (∀ (out : String) (st : Statement) (d : Int), 0 ≤ d →
       compile_statement_chk out st d = compile_statement out st d) := by
  refine ⟨?_, replicateF_neg, compile_statement_chk_eq⟩
  intro s t ht
  have h1 := replicate_nonneg_eq t.toNat s
  rwa [Int.toNat_of_nonneg ht] at h1

/-- Witness for C10 at count 2 and at a `Var` statement at depth 0. -/
theorem claim10_witness :
    replicateF 3 INDENT 2 = some (replicate INDENT 2) ∧
    compile_statement_chk ("") (.Var "x") 0 = compile_statement ("") (.Var "x") 0 :=
  ⟨(claim10_replicate_termination.1 INDENT 2 (by decide)).1,
   claim10_replicate_termination.2.2 ("") (.Var "x") 0 (by decide)⟩

end haumea
